import Mathlib

/-!
Verification development for the FNote frontend core: the publish/subscribe
state store, the optimistic-transaction protocol (`performOptimisticUpdate`),
the virtualized song-list renderer, the lazy-fetch in-flight bookkeeping, the
render scheduler, and the per-song marker operations.

Every definition below is a shallow embedding of the corresponding JavaScript
function in the repository (file and symbol are named in each doc comment).
JavaScript objects used as string-keyed maps are modelled as association lists
that preserve key insertion order, matching JS object key semantics; spread
merges `\x7b...a, ...b\x7d` are modelled by `objMerge`.
-/

namespace FNote

/-! ## JavaScript object-as-map primitives -/

/-- Lookup of `m[k]` in a JS object modelled as an insertion-ordered
association list: the value at the first matching key, if any. -/
def objLookup (m : List (String × α)) (k : String) : Option α :=
  (m.find? (fun e => e.1 = k)).map (fun e => e.2)

/-- Assignment `m[k] = v` on a JS object: overwrite the value in place if the
key exists (keeping its position, as JS objects do), else append the key. -/
def objSet (m : List (String × α)) (k : String) (v : α) : List (String × α) :=
  match m with
  | [] => [(k, v)]
  | e :: rest => if e.1 = k then (k, v) :: rest else e :: objSet rest k v

/-- Spread merge `\x7b ...a, ...b \x7d`: every key of `b` is assigned into `a`
in order; keys of `a` absent from `b` keep their old values. -/
def objMerge (a b : List (String × α)) : List (String × α) :=
  b.foldl (fun acc e => objSet acc e.1 e.2) a

/-- Deletion `delete m[k]` on a JS object. -/
def objDelete (m : List (String × α)) (k : String) : List (String × α) :=
  m.filter (fun e => ¬ e.1 = k)

/-! ## Data model (spec §3, mirrored from the state object in the source) -/

/-- Marker `\x7bid, timestamp\x7d` attached to a song.  Timestamps are JS
numbers used only through order/abs comparisons; modelled as rationals. -/
structure Marker where
  id : Nat
  timestamp : ℚ
deriving DecidableEq, Repr

/-- Song record.  `isPlaceholder` distinguishes the placeholder form
`\x7bpath, isPlaceholder: true\x7d` from a hydrated record. -/
structure Song where
  path : String
  name : String := ""
  artist : String := ""
  isMissing : Bool := false
  isPlaceholder : Bool := false
  markers : List Marker := []
deriving DecidableEq, Repr

/-- The placeholder substituted by `getActivePlaylist` for an unhydrated path:
`\x7b path, isPlaceholder: true \x7d`. -/
def placeholderSong (p : String) : Song :=
  { path := p, isPlaceholder := true }

/-- The `musicData` slice of the central state object (playlist.js). -/
structure MusicData where
  songs : List (String × Song)
  playlists : List (String × List String)
  playlistOrder : List String
  activePlaylist : String
deriving DecidableEq, Repr

/-- The slices of the central mutable state object that the claims under
verification read or write.  (`shuffledPlaylist`/`shuffledIndex` are omitted:
`generateShuffledPlaylist` draws random numbers and touches only those two
fields, which none of the claims mention.) -/
structure AppState where
  musicData : MusicData
  playQueue : List Song
  currentSongIndex : Int
  selectedSongPaths : List String
  lastClickedPath : Option String
deriving DecidableEq, Repr

/-! ## State store (playlist.js, embedded state module) -/

/-- Derived getter `getActivePlaylist` (playlist.js:1292):
`playlists[activePlaylist] || []`, each path mapped to the cached song or to
the placeholder. -/
def getActivePlaylist (st : AppState) : List Song :=
  let activePlaylistPaths :=
    (objLookup st.musicData.playlists st.musicData.activePlaylist).getD []
  activePlaylistPaths.map (fun path =>
    (objLookup st.musicData.songs path).getD (placeholderSong path))

/-- Mutator `addSongsToCache` (playlist.js): early-returns on an empty map,
otherwise merges `songsMap` into the cache with
`state.musicData.songs = \x7b ...songs, ...songsMap \x7d`; publishes nothing. -/
def addSongsToCache (st : AppState) (songsMap : List (String × Song)) : AppState :=
  if songsMap.isEmpty then st
  else { st with musicData :=
    { st.musicData with songs := objMerge st.musicData.songs songsMap } }

/-- Mutator `setPlaylists` (playlist.js): replaces the playlists map. -/
def setPlaylists (st : AppState) (playlists : List (String × List String)) : AppState :=
  { st with musicData := { st.musicData with playlists := playlists } }

/-- Mutator `setPlayQueue` (playlist.js). -/
def setPlayQueue (st : AppState) (queue : List Song) : AppState :=
  { st with playQueue := queue }

/-- Mutator `setCurrentSongIndex` (playlist.js). -/
def setCurrentSongIndex (st : AppState) (index : Int) : AppState :=
  { st with currentSongIndex := index }

/-- Mutator `setSelectedSongPaths` (playlist.js). -/
def setSelectedSongPaths (st : AppState) (paths : List String) : AppState :=
  { st with selectedSongPaths := paths }

/-- Mutator `setLastClickedPath` (playlist.js). -/
def setLastClickedPath (st : AppState) (path : Option String) : AppState :=
  { st with lastClickedPath := path }

/-- Mutator `setMusicData` (playlist.js:1310), called here with all four fields
present (and truthy).  Note the deliberate asymmetry in the source: `songs` is
MERGED into the existing cache (`\x7b ...old, ...new \x7d`), while `playlists`,
`playlistOrder` and `activePlaylist` are REPLACED. -/
def setMusicData (st : AppState) (d : MusicData) : AppState :=
  { st with musicData :=
    { songs := objMerge st.musicData.songs d.songs
      playlists := d.playlists
      playlistOrder := d.playlistOrder
      activePlaylist := d.activePlaylist } }

/-! ## Optimistic transaction protocol (playlist.js:1467 `performOptimisticUpdate`) -/

/-- Observable outcome of one `performOptimisticUpdate` call: the state when
the call returns, the value of the `isUpdating` lock flag afterwards, and
which of the transaction's pieces actually ran. -/
structure TxResult where
  state : AppState
  lockAfter : Bool
  actionRan : Bool
  apiRan : Bool
  undoRan : Bool
deriving DecidableEq, Repr

/-- `performOptimisticUpdate(optimisticAction, apiCall, options)`
(playlist.js:1467).  `lock` is the `isUpdating` flag on entry; `action`
mutates the state and returns the undo closure; `apiOk` is whether the awaited
`apiCall()` resolves (`false` covers both rejection and an error-shaped payload
normalized to a throw by the API gateway).  If the lock is held the call
returns at once, running nothing.  Otherwise the lock is taken, the optimistic
action runs synchronously, the API call is awaited, the undo closure runs only
in the catch branch, and the `finally` block clears the lock on both paths. -/
def performOptimisticUpdate (lock : Bool) (st : AppState)
    (action : AppState → AppState × (AppState → AppState)) (apiOk : Bool) : TxResult :=
  if lock then
    { state := st, lockAfter := lock, actionRan := false, apiRan := false, undoRan := false }
  else
    let acted := action st
    if apiOk then
      { state := acted.1, lockAfter := false, actionRan := true, apiRan := true
        undoRan := false }
    else
      { state := acted.2 acted.1, lockAfter := false, actionRan := true, apiRan := true
        undoRan := true }

/-- The `optimisticAction` closure of `addSongsToActivePlaylist`
(playlist.js:99-138).  Backs up a deep copy of the playlists map; builds
`newSongsMap = \x7b ...songs \x7d` extended with each song to add and
`newPathsForPlaylist = [...(playlists[active] || [])]` extended with each path;
calls `addSongsToCache(newSongsMap)` (a silent cache merge) and
`setPlaylists(\x7b ...playlists, [active]: newPathsForPlaylist \x7d)`.  The
returned undo closure restores only the playlists map — the source comments
"No need to remove songs from cache, just revert playlists". -/
def addSongsOptimisticAction (songsToAdd : List Song) (st : AppState) :
    AppState × (AppState → AppState) :=
  let originalPlaylists := st.musicData.playlists
  let activeName := st.musicData.activePlaylist
  let newSongsMap :=
    songsToAdd.foldl (fun acc song => objSet acc song.path song) st.musicData.songs
  let newPathsForPlaylist :=
    ((objLookup st.musicData.playlists activeName).getD [])
      ++ songsToAdd.map (fun song => song.path)
  let newPlaylistsMap := objSet st.musicData.playlists activeName newPathsForPlaylist
  let st1 := addSongsToCache st newSongsMap
  let st2 := setPlaylists st1 newPlaylistsMap
  (st2, fun stNow => setPlaylists stNow originalPlaylists)

/-! ## Song deletion (playlist.js:489-567 `deleteSelectedSongs`) -/

/-- JS array indexing `list[i]` with a possibly negative or out-of-range
index (yields `undefined`). -/
def listGetInt (l : List α) (i : Int) : Option α :=
  if h : 0 ≤ i ∧ i.toNat < l.length then some (l.get ⟨i.toNat, h.2⟩) else none

/-- JS `Array.prototype.findIndex`: first matching index, or `-1`. -/
def findIdxInt (l : List String) (p : String) : Int :=
  match l.findIdx? (fun x => x = p) with
  | some n => (n : Int)
  | none => -1

/-- The `optimisticAction` closure of `deleteSelectedSongs`
(playlist.js:489-567), forward direction.  It builds `newSongsMap` as a copy
of the cache with every selected path deleted, filters every playlist, and
hands both to `setMusicData`; it then filters the play queue, recomputes the
current song index, and clears the selection.  (The shuffle branch touches
only the shuffled-playlist fields, which are outside the modelled state.) -/
def deleteSelectedSongsOptimistic (st : AppState) : AppState :=
  let selectedSongPaths := st.selectedSongPaths
  let playingSong := listGetInt (getActivePlaylist st) st.currentSongIndex
  let wasPlayingSongDeleted :=
    match playingSong with
    | some s => selectedSongPaths.contains s.path
    | none => false
  let musicData := st.musicData
  let newSongsMap := selectedSongPaths.foldl (fun acc p => objDelete acc p) musicData.songs
  let newPlaylistsMap := musicData.playlists.map (fun e =>
    (e.1, e.2.filter (fun p => ¬ selectedSongPaths.contains p)))
  let newMusicData : MusicData :=
    { musicData with songs := newSongsMap, playlists := newPlaylistsMap }
  let st1 := setMusicData st newMusicData
  let optimisticPlayQueue :=
    st.playQueue.filter (fun s => ¬ selectedSongPaths.contains s.path)
  let optimisticCurrentSongIndex :=
    if wasPlayingSongDeleted then (-1 : Int)
    else match playingSong with
      | some s =>
          findIdxInt ((objLookup newMusicData.playlists musicData.activePlaylist).getD [])
            s.path
      | none => st.currentSongIndex
  let st2 := setPlayQueue st1 optimisticPlayQueue
  let st3 := setCurrentSongIndex st2 optimisticCurrentSongIndex
  let st4 := setSelectedSongPaths st3 []
  setLastClickedPath st4 none

/-! ## Publish/subscribe (playlist.js:1258 `publish`, 1267 `subscribe`) -/

/-- One subscriber callback, abstracted by its registration identity and by
whether invoking it throws. -/
structure SubCallback where
  id : Nat
  throws : Bool
deriving DecidableEq, Repr

/-- `subscribe` (playlist.js:1267): pushes the callback onto the end of the
per-event array, so the array order is registration order. -/
def subscribe (cbs : List SubCallback) (cb : SubCallback) : List SubCallback :=
  cbs ++ [cb]

/-- `publish` (playlist.js:1258): `subscribers[event]?.forEach(cb => cb(data))`.
`forEach` invokes callbacks in array order; there is no try/catch, so an
exception thrown by a callback propagates out of `forEach` and the remaining
callbacks are not invoked.  Returns the ids invoked, in order, and whether an
exception escaped. -/
def publishRun : List SubCallback → List Nat × Bool
  | [] => ([], false)
  | c :: rest =>
    if c.throws then ([c.id], true)
    else
      let r := publishRun rest
      (c.id :: r.1, r.2)

/-! ## Markers (part_003: add-marker click handler, `updateMarkerTimestamp`,
`deleteMarker`) -/

/-- JS `Math.abs` on the rational model of JS numbers. -/
def ratAbs (x : ℚ) : ℚ := if x < 0 then -x else x

/-- `ratAbs` agrees with the lattice absolute value. -/
theorem ratAbs_eq_abs (x : ℚ) : ratAbs x = |x| := by
  unfold ratAbs
  split_ifs with h
  · exact (abs_of_neg h).symm
  · exact (abs_of_nonneg (not_lt.mp h)).symm

/-- Comparator `(a, b) => a.timestamp - b.timestamp` as an ordering. -/
def markerLE (a b : Marker) : Prop := a.timestamp ≤ b.timestamp

instance : DecidableRel markerLE := fun a b =>
  inferInstanceAs (Decidable (a.timestamp ≤ b.timestamp))

instance : IsTotal Marker markerLE := ⟨fun a b => le_total a.timestamp b.timestamp⟩

instance : IsTrans Marker markerLE := ⟨fun _ _ _ h1 h2 => le_trans h1 h2⟩

/-- `markers.sort((a, b) => a.timestamp - b.timestamp)`: ascending sort by
timestamp. -/
def sortMarkers (ms : List Marker) : List Marker := ms.insertionSort markerLE

/-- The add-marker click handler (part_003:549-569): reject the candidate if
any existing marker is within 0.5 seconds (`Math.abs(m.timestamp - t) < 0.5`),
otherwise push it and re-sort. -/
def addMarker (ms : List Marker) (newId : Nat) (t : ℚ) : List Marker :=
  if ms.any (fun m => ratAbs (m.timestamp - t) < 1/2) then ms
  else sortMarkers (ms ++ [{ id := newId, timestamp := t }])

/-- In-place timestamp assignment on the first marker with the given id
(`markers.find(m => m.id === markerId)` then `markerToUpdate.timestamp = t`). -/
def updFirstTimestamp : List Marker → Nat → ℚ → List Marker
  | [], _, _ => []
  | m :: rest, mid, t =>
    if m.id = mid then { m with timestamp := t } :: rest
    else m :: updFirstTimestamp rest mid t

/-- `updateMarkerTimestamp` (part_003:216-238): if the marker exists, set its
timestamp to the new value and re-sort.  There is no minimum-spacing check on
this path. -/
def updateMarkerTimestamp (ms : List Marker) (mid : Nat) (t : ℚ) : List Marker :=
  if ms.any (fun m => m.id = mid) then sortMarkers (updFirstTimestamp ms mid t) else ms

/-- `deleteMarker` (part_003): `markers.filter(m => m.id !== markerId)`. -/
def deleteMarker (ms : List Marker) (mid : Nat) : List Marker :=
  ms.filter (fun m => ¬ m.id = mid)

/-- A marker list sorted ascending by timestamp. -/
def MarkersSorted (ms : List Marker) : Prop := ms.Pairwise markerLE

/-- No two markers of the list closer than the minimum spacing of 0.5 s. -/
def MarkersSpaced (ms : List Marker) : Prop :=
  ms.Pairwise (fun a b => (1 : ℚ)/2 ≤ ratAbs (a.timestamp - b.timestamp))

instance (ms : List Marker) : Decidable (MarkersSorted ms) := by
  unfold MarkersSorted; infer_instance

instance (ms : List Marker) : Decidable (MarkersSpaced ms) := by
  unfold MarkersSpaced; infer_instance

/-! ## Virtualized list renderer (ui/virtualList.js `renderVisibleSongs`) -/

/-- One pooled row element (`li`), reduced to the observables the claims
mention: its vertical transform (`translateY` in px), the data index it
represents, and whether it carries the `hidden` class. -/
structure VNode where
  transform : Int
  dataIdx : Int
  hidden : Bool
deriving DecidableEq, Repr

/-- A freshly created `li` element (no transform applied yet, not hidden). -/
def freshNode : VNode := { transform := 0, dataIdx := 0, hidden := false }

/-- The pool-growth loop
`while (visibleNodes.length <= renderEnd - renderStart) push(li)`:
append fresh nodes until the pool length exceeds `target`. -/
def growPool (pool : List VNode) (target : Int) : List VNode :=
  pool ++ List.replicate (target + 1 - pool.length).toNat freshNode

/-- The assignment loop of `renderVisibleSongs`
(`for (let i = renderStartIndex; i <= renderEndIndex; i++, nodeIndex++)`)
fused with the trailing hide loop: walking the pool, the node for loop index
`i` gets `transform = translateY(i * 46)` and loses the `hidden` class while
`i ≤ renderEnd`; every pool node beyond the window gets the `hidden` class. -/
def assignLoop : List VNode → Int → Int → List VNode
  | [], _, _ => []
  | node :: rest, i, renderEnd =>
    if i ≤ renderEnd then
      { transform := i * 46, dataIdx := i, hidden := false }
        :: assignLoop rest (i + 1) renderEnd
    else
      { node with hidden := true } :: assignLoop rest (i + 1) renderEnd

/-- `renderVisibleSongs` (part_002:190-281), restricted to the geometry the
claims are about.  `ITEM_HEIGHT = 46`, `BUFFER_ITEMS = 5`;
`startIndex = Math.floor(scrollTop / 46)`,
`numVisibleItems = Math.ceil(clientHeight / 46)`,
`renderStartIndex = Math.max(0, startIndex - 5)`,
`renderEndIndex = Math.min(dataSource.length - 1, startIndex + numVisibleItems + 5)`. -/
def renderVisibleSongs (pool : List VNode) (scrollTop clientHeight dataLen : Nat) :
    List VNode :=
  let startIndex : Int := (scrollTop / 46 : Nat)
  let numVisibleItems : Int := ((clientHeight + 45) / 46 : Nat)
  let renderStartIndex : Int := max 0 (startIndex - 5)
  let renderEndIndex : Int := min ((dataLen : Int) - 1) (startIndex + numVisibleItems + 5)
  assignLoop (growPool pool (renderEndIndex - renderStartIndex))
    renderStartIndex renderEndIndex

/-- The data indices of the non-hidden pooled elements, in pool order. -/
def visibleIdxs (l : List VNode) : List Int :=
  (l.filter (fun nd => !nd.hidden)).map (fun nd => nd.dataIdx)

/-- The list of integers `a, a+1, ..., b` (empty when `b < a`). -/
def intRangeList (a b : Int) : List Int :=
  (List.range (b + 1 - a).toNat).map (fun (k : Nat) => a + (k : Int))

theorem intRangeList_cons {a b : Int} (h : a ≤ b) :
    intRangeList a b = a :: intRangeList (a + 1) b := by
  have hn : (b + 1 - a).toNat = (b + 1 - (a + 1)).toNat + 1 := by omega
  simp only [intRangeList, hn, List.range_succ_eq_map, List.map_cons, List.map_map]
  refine congrArg₂ List.cons (by simp) ?_
  apply List.map_congr_left
  intro k _
  simp only [Function.comp_apply]
  omega

theorem intRangeList_nil {a b : Int} (h : b < a) : intRangeList a b = [] := by
  have hn : (b + 1 - a).toNat = 0 := by omega
  simp [intRangeList, hn]

theorem mem_intRangeList {a b j : Int} : j ∈ intRangeList a b ↔ a ≤ j ∧ j ≤ b := by
  simp only [intRangeList, List.mem_map, List.mem_range]
  constructor
  · rintro ⟨k, hk, rfl⟩
    omega
  · rintro ⟨h1, h2⟩
    exact ⟨(j - a).toNat, by omega, by omega⟩

theorem nodup_intRangeList (a b : Int) : (intRangeList a b).Nodup := by
  refine List.Nodup.map ?_ (List.nodup_range _)
  intro k1 k2 hk
  simpa using hk

/-- Core characterization of the assignment loop: when the pool is at least
as long as the window, the non-hidden data indices are exactly `i..e`. -/
theorem visibleIdxs_assignLoop :
    ∀ (pool : List VNode) (i e : Int), (e + 1 - i).toNat ≤ pool.length →
      visibleIdxs (assignLoop pool i e) = intRangeList i e := by
  intro pool
  induction pool with
  | nil =>
    intro i e h
    simp only [List.length_nil, Nat.le_zero] at h
    rw [assignLoop, intRangeList_nil (by omega)]
    rfl
  | cons node rest ih =>
    intro i e h
    rw [assignLoop]
    split_ifs with hie
    · rw [intRangeList_cons hie]
      have := ih (i + 1) e (by simp at h; omega)
      simp [visibleIdxs, List.filter_cons] at this ⊢
      exact this
    · have hlt : e < i := by omega
      have := ih (i + 1) e (by omega)
      rw [intRangeList_nil hlt]
      rw [intRangeList_nil (by omega)] at this
      simp [visibleIdxs, List.filter_cons] at this ⊢
      exact this

/-- Non-hidden nodes produced by the assignment loop carry the position
transform `translateY(dataIdx * 46)`. -/
theorem assignLoop_transform :
    ∀ (pool : List VNode) (i e : Int) (nd : VNode), nd ∈ assignLoop pool i e →
      nd.hidden = false → nd.transform = nd.dataIdx * 46 := by
  intro pool
  induction pool with
  | nil =>
    intro i e nd hmem
    simp [assignLoop] at hmem
  | cons node rest ih =>
    intro i e nd hmem hvis
    rw [assignLoop] at hmem
    split_ifs at hmem with hie
    · rcases List.mem_cons.mp hmem with rfl | htail
      · rfl
      · exact ih (i + 1) e nd htail hvis
    · rcases List.mem_cons.mp hmem with rfl | htail
      · simp at hvis
      · exact ih (i + 1) e nd htail hvis

/-- The grown pool always covers the window. -/
theorem growPool_covers (pool : List VNode) (i e : Int) :
    (e + 1 - i).toNat ≤ (growPool pool (e - i)).length := by
  simp only [growPool, List.length_append, List.length_replicate]
  omega

/-- The non-hidden window after a full render pass is exactly
`[renderStart, renderEnd]`. -/
theorem visibleIdxs_renderVisibleSongs (pool : List VNode)
    (scrollTop clientHeight dataLen : Nat) :
    visibleIdxs (renderVisibleSongs pool scrollTop clientHeight dataLen) =
      intRangeList (max 0 (((scrollTop / 46 : Nat) : Int) - 5))
        (min ((dataLen : Int) - 1)
          (((scrollTop / 46 : Nat) : Int) + (((clientHeight + 45) / 46 : Nat) : Int) + 5)) := by
  apply visibleIdxs_assignLoop
  apply growPool_covers

/-! ## Theorems: state store and optimistic transactions -/

/-- C2: a call made while `isUpdating` is already held returns immediately
with the state untouched, running neither the optimistic action nor the API
call; and any call that acquires the lock releases it (the `finally` block)
whether the API call succeeds or fails. -/
theorem mutex_exclusivity (st : AppState)
    (action : AppState → AppState × (AppState → AppState)) (apiOk : Bool) :
    performOptimisticUpdate true st action apiOk =
      { state := st, lockAfter := true, actionRan := false, apiRan := false,
        undoRan := false }
    ∧ (performOptimisticUpdate false st action apiOk).lockAfter = false := by
  cases apiOk <;> simp [performOptimisticUpdate]

/-- Closed instance of `mutex_exclusivity` at a concrete state. -/
theorem mutex_exclusivity_witness :
    performOptimisticUpdate true
      { musicData := { songs := [], playlists := [("Default", [])],
                       playlistOrder := ["Default"], activePlaylist := "Default" },
        playQueue := [], currentSongIndex := -1, selectedSongPaths := [],
        lastClickedPath := none }
      (addSongsOptimisticAction []) true =
      { state := { musicData := { songs := [], playlists := [("Default", [])],
                                  playlistOrder := ["Default"],
                                  activePlaylist := "Default" },
                   playQueue := [], currentSongIndex := -1, selectedSongPaths := [],
                   lastClickedPath := none },
        lockAfter := true, actionRan := false, apiRan := false, undoRan := false } :=
  (mutex_exclusivity _ (addSongsOptimisticAction []) true).1

/-- C1 counterexample: for the add-songs transaction, a failed API call does
invoke the undo closure, but the song cache does NOT deep-equal its value from
before the optimistic action — the added song is still cached after rollback
(the undo closure only reverts the playlists map). -/
theorem rollback_cache_not_restored :
    (performOptimisticUpdate false
      { musicData := { songs := [], playlists := [("Default", [])],
                       playlistOrder := ["Default"], activePlaylist := "Default" },
        playQueue := [], currentSongIndex := -1, selectedSongPaths := [],
        lastClickedPath := none }
      (addSongsOptimisticAction [{ path := "a" }]) false).undoRan = true
    ∧ (performOptimisticUpdate false
      { musicData := { songs := [], playlists := [("Default", [])],
                       playlistOrder := ["Default"], activePlaylist := "Default" },
        playQueue := [], currentSongIndex := -1, selectedSongPaths := [],
        lastClickedPath := none }
      (addSongsOptimisticAction [{ path := "a" }]) false).state.musicData.songs ≠ [] := by
  refine ⟨rfl, ?_⟩
  decide

/-- C1 amended: when the API call of the add-songs transaction fails, the undo
closure runs and the playlists map, playlist order, active playlist, play
queue and current song index all deep-equal their values from before the
optimistic action; the song cache, however, keeps exactly the cache produced
by the optimistic action (its additions are not rolled back).  On success the
undo closure never runs. -/
theorem rollback_addSongs (st : AppState) (songsToAdd : List Song) :
    (performOptimisticUpdate false st (addSongsOptimisticAction songsToAdd)
        false).undoRan = true
    ∧ (performOptimisticUpdate false st (addSongsOptimisticAction songsToAdd)
        false).state.musicData.playlists = st.musicData.playlists
    ∧ (performOptimisticUpdate false st (addSongsOptimisticAction songsToAdd)
        false).state.musicData.playlistOrder = st.musicData.playlistOrder
    ∧ (performOptimisticUpdate false st (addSongsOptimisticAction songsToAdd)
        false).state.musicData.activePlaylist = st.musicData.activePlaylist
    ∧ (performOptimisticUpdate false st (addSongsOptimisticAction songsToAdd)
        false).state.playQueue = st.playQueue
    ∧ (performOptimisticUpdate false st (addSongsOptimisticAction songsToAdd)
        false).state.currentSongIndex = st.currentSongIndex
    ∧ (performOptimisticUpdate false st (addSongsOptimisticAction songsToAdd)
        false).state.musicData.songs =
        ((addSongsOptimisticAction songsToAdd st).1).musicData.songs
    ∧ (performOptimisticUpdate false st (addSongsOptimisticAction songsToAdd)
        true).undoRan = false := by
  simp only [performOptimisticUpdate, addSongsOptimisticAction, addSongsToCache,
    setPlaylists, Bool.false_eq_true, if_false, if_true]
  split_ifs <;> simp

/-! ## Theorems: `getActivePlaylist` totality (C10) -/

/-- C10: `getActivePlaylist` is total: its result has exactly one element per
path of the active playlist (the cached song when hydrated, the placeholder
`\x7bpath, isPlaceholder: true\x7d` otherwise), and when the active playlist
name has no entry in the playlists map the result is the empty list. -/
theorem getActivePlaylist_total (st : AppState) :
    (getActivePlaylist st).length =
      ((objLookup st.musicData.playlists st.musicData.activePlaylist).getD []).length
    ∧ (objLookup st.musicData.playlists st.musicData.activePlaylist = none →
        getActivePlaylist st = [])
    ∧ ∀ i : Nat, (getActivePlaylist st)[i]? =
        (((objLookup st.musicData.playlists st.musicData.activePlaylist).getD
          [])[i]?).map (fun path =>
            (objLookup st.musicData.songs path).getD (placeholderSong path)) := by
  refine ⟨by simp [getActivePlaylist], fun h => by simp [getActivePlaylist, h],
    fun i => ?_⟩
  simp [getActivePlaylist]

/-- Closed instance of `getActivePlaylist_total` at a state whose active
playlist name has no entry in the playlists map. -/
theorem getActivePlaylist_total_witness :
    getActivePlaylist
      { musicData := { songs := [], playlists := [("Default", [])],
                       playlistOrder := ["Default"], activePlaylist := "Gone" },
        playQueue := [], currentSongIndex := -1, selectedSongPaths := [],
        lastClickedPath := none } = [] :=
  (getActivePlaylist_total _).2.1 (by decide)

/-! ## Lazy-fetch in-flight bookkeeping (ui/virtualList.js `fetchSongData`,
`processPendingFetches`) -/

/-- One backend batch issued by `Api.getSongsByPaths(newPaths)`: its `newPaths`
array plus a serial id distinguishing concurrently pending batches. -/
structure Batch where
  id : Nat
  paths : List String
deriving DecidableEq, Repr

/-- The bookkeeping state around `pathsCurrentlyFetching`: the in-flight path
set, the issued batches whose promise has not settled yet, and the next batch
serial. -/
structure FetchState where
  inflight : List String
  pendingBatches : List Batch
  nextId : Nat
deriving DecidableEq, Repr

/-- Startup state: `pathsCurrentlyFetching = new Set()`, nothing pending. -/
def initialFetchState : FetchState :=
  { inflight := [], pendingBatches := [], nextId := 0 }

/-- The `newPaths` computation of `fetchSongData` (part_002:57):
`Array.from(pathsToRequest).filter(p => !pathsCurrentlyFetching.has(p))`.
`pathsToRequest` is a JS `Set`, so it is deduplicated (its order is
irrelevant to every property below). -/
def newPathsOf (s : FetchState) (pathsToRequest : List String) : List String :=
  pathsToRequest.dedup.filter (fun p => p ∉ s.inflight)

/-- The two events that drive the bookkeeping: the debounced processor runs
`fetchSongData(pathsToFetch)`, or the promise of a pending batch settles (the
`finally` block runs on resolution and on rejection alike). -/
inductive FetchEvent where
  | request (paths : List String)
  | settle (bid : Nat)
deriving DecidableEq, Repr

/-- One step of the bookkeeping.  A request adds its `newPaths` to
`pathsCurrentlyFetching` and issues them as a batch (or does nothing at all if
every requested path is already in flight); a settle runs the batch's
`finally` block, which deletes exactly that batch's `newPaths` from
`pathsCurrentlyFetching`. -/
def fetchStep (s : FetchState) (e : FetchEvent) : FetchState :=
  match e with
  | .request paths =>
    let newPaths := newPathsOf s paths
    if newPaths.isEmpty then s
    else
      { inflight := s.inflight ++ newPaths
        pendingBatches := s.pendingBatches ++ [{ id := s.nextId, paths := newPaths }]
        nextId := s.nextId + 1 }
  | .settle bid =>
    match s.pendingBatches.find? (fun b => b.id = bid) with
    | none => s
    | some b =>
      { s with
        inflight := s.inflight.filter (fun p => p ∉ b.paths)
        pendingBatches := s.pendingBatches.filter (fun b2 => ¬ b2.id = bid) }

/-- The bookkeeping state after a trace of request/settle events. -/
def fetchRun (evs : List FetchEvent) : FetchState :=
  evs.foldl fetchStep initialFetchState

/-- Invariant tying `pathsCurrentlyFetching` to the pending batches. -/
structure FetchInv (s : FetchState) : Prop where
  cover : ∀ p, p ∈ s.inflight ↔ ∃ b ∈ s.pendingBatches, p ∈ b.paths
  fresh : ∀ b ∈ s.pendingBatches, b.id < s.nextId
  idsNodup : (s.pendingBatches.map Batch.id).Nodup
  pathsDisj : s.pendingBatches.Pairwise
    (fun b1 b2 => ∀ p, ¬ (p ∈ b1.paths ∧ p ∈ b2.paths))

theorem fetchInv_initial : FetchInv initialFetchState := by
  constructor <;> simp [initialFetchState]

theorem fetchInv_step {s : FetchState} (hs : FetchInv s) (e : FetchEvent) :
    FetchInv (fetchStep s e) := by
  cases e with
  | request paths =>
    rw [fetchStep]
    split_ifs with hemp
    · exact hs
    · have hnew : ∀ p ∈ newPathsOf s paths, p ∉ s.inflight := by
        intro p hp
        have := List.of_mem_filter hp
        simpa using this
      refine ⟨fun p => ?_, fun b hb => ?_, ?_, ?_⟩
      · simp only [List.mem_append, hs.cover p, List.mem_singleton]
        constructor
        · rintro (⟨b, hb, hpb⟩ | hp)
          · exact ⟨b, Or.inl hb, hpb⟩
          · exact ⟨_, Or.inr rfl, hp⟩
        · rintro ⟨b, hb | rfl, hpb⟩
          · exact Or.inl ⟨b, hb, hpb⟩
          · exact Or.inr hpb
      · simp only [List.mem_append, List.mem_singleton] at hb
        rcases hb with hb | rfl
        · exact Nat.lt_succ_of_lt (hs.fresh b hb)
        · exact Nat.lt_succ_self _
      · rw [List.map_append, List.nodup_append]
        refine ⟨hs.idsNodup, List.nodup_singleton _, ?_⟩
        intro x hx
        simp only [List.map_cons, List.map_nil, List.mem_singleton]
        rcases List.mem_map.mp hx with ⟨b, hb, rfl⟩
        have := hs.fresh b hb
        omega
      · rw [List.pairwise_append]
        refine ⟨hs.pathsDisj, List.pairwise_singleton _ _, ?_⟩
        intro b1 hb1 b2 hb2 p hp
        simp only [List.mem_singleton] at hb2
        subst hb2
        rcases hp with ⟨hp1, hp2⟩
        have hinfl : p ∈ s.inflight := (hs.cover p).mpr ⟨b1, hb1, hp1⟩
        exact hnew p hp2 hinfl
  | settle bid =>
    rw [fetchStep]
    split
    · exact hs
    · rename_i b hfind
      have hbmem : b ∈ s.pendingBatches := List.mem_of_find?_eq_some hfind
      have hbid : b.id = bid := by simpa using List.find?_some hfind
      have hid_inj : ∀ b2 ∈ s.pendingBatches, b2.id = bid → b2 = b := by
        intro b2 hb2 h2
        exact List.inj_on_of_nodup_map hs.idsNodup hb2 hbmem (by rw [h2, hbid])
      have hsymm : Symmetric (fun b1 b2 : Batch => ∀ p, ¬ (p ∈ b1.paths ∧ p ∈ b2.paths)) := by
        intro x y hxy q hq
        exact hxy q ⟨hq.2, hq.1⟩
      have hdisj : ∀ b2 ∈ s.pendingBatches, b2 ≠ b →
          ∀ p, ¬ (p ∈ b2.paths ∧ p ∈ b.paths) :=
        fun b2 hb2 hne p hp =>
          List.Pairwise.forall hsymm hs.pathsDisj hb2 hbmem hne p hp
      have hinf : ∀ p : String,
          p ∈ s.inflight.filter (fun p => p ∉ b.paths) ↔
            p ∈ s.inflight ∧ p ∉ b.paths := by
        intro p
        simp
      have hpend : ∀ b2 : Batch,
          b2 ∈ s.pendingBatches.filter (fun b2 => ¬ b2.id = bid) ↔
            b2 ∈ s.pendingBatches ∧ ¬ b2.id = bid := by
        intro b2
        simp
      refine ⟨fun p => ?_, fun b2 hb2 => ?_, ?_, ?_⟩
      · rw [hinf p]
        constructor
        · rintro ⟨hpin, hpnb⟩
          obtain ⟨b2, hb2, hpb2⟩ := (hs.cover p).mp hpin
          refine ⟨b2, (hpend b2).mpr ⟨hb2, fun h2 => ?_⟩, hpb2⟩
          exact hpnb ((hid_inj b2 hb2 h2) ▸ hpb2)
        · rintro ⟨b2, hb2f, hpb2⟩
          obtain ⟨hb2, hb2ne⟩ := (hpend b2).mp hb2f
          refine ⟨(hs.cover p).mpr ⟨b2, hb2, hpb2⟩, fun hpb => ?_⟩
          exact hdisj b2 hb2 (fun he => hb2ne (by rw [he, hbid])) p ⟨hpb2, hpb⟩
      · exact hs.fresh b2 ((hpend b2).mp hb2).1
      · exact hs.idsNodup.sublist (List.Sublist.map _ (List.filter_sublist _))
      · exact hs.pathsDisj.sublist (List.filter_sublist _)

theorem fetchInv_foldl (evs : List FetchEvent) :
    ∀ s : FetchState, FetchInv s → FetchInv (evs.foldl fetchStep s) := by
  induction evs with
  | nil => exact fun s hs => hs
  | cons e rest ih => exact fun s hs => ih _ (fetchInv_step hs e)

theorem fetchInv_run (evs : List FetchEvent) : FetchInv (fetchRun evs) :=
  fetchInv_foldl evs _ fetchInv_initial

/-! ## Render scheduler (part_005:34-87, `scheduleRender` /
`performScheduledRenders`) -/

/-- The keys of the module-level `dirty` object. -/
inductive RFlag where
  | songList
  | songListStyles
  | playlists
  | player
  | header
  | shuffleRepeat
  | marker
deriving DecidableEq, Repr

instance : Fintype RFlag :=
  ⟨⟨{RFlag.songList, RFlag.songListStyles, RFlag.playlists, RFlag.player,
     RFlag.header, RFlag.shuffleRepeat, RFlag.marker}, by decide⟩,
   fun f => by cases f <;> decide⟩

/-- The scheduler's module-level mutable state: the `dirty` flag object, the
`isRenderScheduled` guard, and a count of `requestAnimationFrame` callbacks
actually scheduled (for stating "exactly one frame is scheduled"). -/
structure SchedState where
  dirty : RFlag → Bool
  isRenderScheduled : Bool
  framesScheduled : Nat

/-- `Object.assign(dirty, updates)`: every key present in `updates` overwrites
the corresponding `dirty` entry; absent keys are untouched. -/
def assignFlags (d : RFlag → Bool) (updates : List (RFlag × Bool)) : RFlag → Bool :=
  updates.foldl (fun acc u => fun f => if f = u.1 then u.2 else acc f) d

/-- `scheduleRender(updates)` (part_005:34-40): merge the flags via
`Object.assign`, and if no frame callback is scheduled yet, schedule exactly
one (`requestAnimationFrame(performScheduledRenders)`) and set the guard. -/
def scheduleRender (s : SchedState) (updates : List (RFlag × Bool)) : SchedState :=
  let d := assignFlags s.dirty updates
  if s.isRenderScheduled then
    { s with dirty := d }
  else
    { dirty := d, isRenderScheduled := true,
      framesScheduled := s.framesScheduled + 1 }

/-- The UI update routines `performScheduledRenders` can invoke, one per
subsystem. -/
inductive RenderAction where
  | renderSongList
  | updateSongListUI
  | renderPlaylists
  | updateHeader
  | updatePlayer
  | updateShuffleRepeat
  | updateMarker
deriving DecidableEq, Repr

/-- `performScheduledRenders` (part_005:45-87): one pass over the accumulated
flags in the source's order — `songList` (a full rebuild, whose branch skips
the style-only `songListStyles` update), then `playlists`, `header`, `player`,
`shuffleRepeat`, `marker` — after which every flag and the scheduled guard are
cleared.  Returns the invoked updates in order, with the cleared state. -/
def performScheduledRenders (s : SchedState) : List RenderAction × SchedState :=
  let acts :=
    (if s.dirty RFlag.songList then [RenderAction.renderSongList]
     else if s.dirty RFlag.songListStyles then [RenderAction.updateSongListUI]
     else [])
    ++ (if s.dirty RFlag.playlists then [RenderAction.renderPlaylists] else [])
    ++ (if s.dirty RFlag.header then [RenderAction.updateHeader] else [])
    ++ (if s.dirty RFlag.player then [RenderAction.updatePlayer] else [])
    ++ (if s.dirty RFlag.shuffleRepeat then [RenderAction.updateShuffleRepeat] else [])
    ++ (if s.dirty RFlag.marker then [RenderAction.updateMarker] else [])
  (acts,
   { dirty := fun _ => false, isRenderScheduled := false,
     framesScheduled := s.framesScheduled })

theorem assignFlags_true {d : RFlag → Bool} {u : List (RFlag × Bool)} {f : RFlag}
    (honly : ∀ pr ∈ u, pr.2 = true) (h : d f = true ∨ (f, true) ∈ u) :
    assignFlags d u f = true := by
  induction u generalizing d with
  | nil =>
    rcases h with h | h
    · exact h
    · simp at h
  | cons u1 rest ih =>
    show assignFlags (fun g => if g = u1.1 then u1.2 else d g) rest f = true
    apply ih (fun pr hpr => honly pr (List.mem_cons_of_mem u1 hpr))
    rcases h with h | h
    · left
      by_cases hf : f = u1.1
      · rw [if_pos hf]
        exact honly u1 (List.mem_cons_self u1 rest)
      · rw [if_neg hf]
        exact h
    · rcases List.mem_cons.mp h with h | h
      · left
        have hf : f = u1.1 := by rw [← h]
        rw [if_pos hf]
        exact honly u1 (List.mem_cons_self u1 rest)
      · right
        exact h

theorem scheduleRender_dirty_true {s : SchedState} {u : List (RFlag × Bool)} {f : RFlag}
    (honly : ∀ pr ∈ u, pr.2 = true) (h : s.dirty f = true ∨ (f, true) ∈ u) :
    (scheduleRender s u).dirty f = true := by
  rw [scheduleRender]
  split_ifs <;> exact assignFlags_true honly h

theorem scheduleRender_keeps_scheduled {s : SchedState} {u : List (RFlag × Bool)}
    (h : s.isRenderScheduled = true) :
    (scheduleRender s u).isRenderScheduled = true
    ∧ (scheduleRender s u).framesScheduled = s.framesScheduled := by
  rw [scheduleRender]
  rw [if_pos h]
  exact ⟨h, rfl⟩

theorem foldl_scheduleRender_scheduled (us : List (List (RFlag × Bool))) :
    ∀ s : SchedState, s.isRenderScheduled = true →
      (us.foldl scheduleRender s).isRenderScheduled = true
      ∧ (us.foldl scheduleRender s).framesScheduled = s.framesScheduled := by
  induction us with
  | nil => exact fun s hs => ⟨hs, rfl⟩
  | cons u rest ih =>
    intro s hs
    rw [List.foldl_cons]
    have hk := scheduleRender_keeps_scheduled (u := u) hs
    obtain ⟨h1, h2⟩ := ih (scheduleRender s u) hk.1
    exact ⟨h1, by rw [h2, hk.2]⟩

theorem foldl_scheduleRender_dirty (us : List (List (RFlag × Bool))) :
    ∀ s : SchedState, (∀ u ∈ us, ∀ pr ∈ u, pr.2 = true) → ∀ f : RFlag,
      (s.dirty f = true ∨ ∃ u ∈ us, (f, true) ∈ u) →
      (us.foldl scheduleRender s).dirty f = true := by
  induction us with
  | nil =>
    intro s _ f h
    rcases h with h | ⟨u, hu, _⟩
    · exact h
    · simp at hu
  | cons u rest ih =>
    intro s honly f h
    rw [List.foldl_cons]
    apply ih _ (fun v hv pr hpr => honly v (List.mem_cons_of_mem u hv) pr hpr)
    rcases h with h | ⟨v, hv, hfv⟩
    · exact Or.inl (scheduleRender_dirty_true
        (fun pr hpr => honly u (List.mem_cons_self u rest) pr hpr) (Or.inl h))
    · rcases List.mem_cons.mp hv with rfl | hv
      · exact Or.inl (scheduleRender_dirty_true
          (fun pr hpr => honly v (List.mem_cons_self v rest) pr hpr) (Or.inr hfv))
      · exact Or.inr ⟨v, hv, hfv⟩

theorem performScheduledRenders_nodup (s : SchedState) :
    (performScheduledRenders s).1.Nodup := by
  rw [performScheduledRenders]
  split_ifs <;> simp

/-- C5: across any sequence of `scheduleRender` calls between two frames
(starting with no frame scheduled; every call site passes only `true` flags):
previously-set flags are never lost and every passed flag is merged in;
exactly one frame callback is scheduled; the callback performs each
subsystem's update at most once, with the full `songList` rebuild subsuming
and skipping the style-only `songListStyles` update; and the callback clears
every flag and the scheduled guard. -/
theorem scheduler_coalesces (s0 : SchedState) (us : List (List (RFlag × Bool)))
    (h0 : s0.isRenderScheduled = false)
    (honly : ∀ u ∈ us, ∀ pr ∈ u, pr.2 = true)
    (hne : us ≠ []) :
    (∀ f, s0.dirty f = true → (us.foldl scheduleRender s0).dirty f = true)
    ∧ (∀ f u, u ∈ us → (f, true) ∈ u →
        (us.foldl scheduleRender s0).dirty f = true)
    ∧ (us.foldl scheduleRender s0).framesScheduled = s0.framesScheduled + 1
    ∧ (performScheduledRenders (us.foldl scheduleRender s0)).1.Nodup
    ∧ ((us.foldl scheduleRender s0).dirty RFlag.songList = true →
        RenderAction.renderSongList ∈
          (performScheduledRenders (us.foldl scheduleRender s0)).1
        ∧ RenderAction.updateSongListUI ∉
          (performScheduledRenders (us.foldl scheduleRender s0)).1)
    ∧ (∀ f, (performScheduledRenders (us.foldl scheduleRender s0)).2.dirty f = false)
    ∧ (performScheduledRenders (us.foldl scheduleRender s0)).2.isRenderScheduled
        = false := by
  refine ⟨fun f h => foldl_scheduleRender_dirty us s0 honly f (Or.inl h),
    fun f u hu hf => foldl_scheduleRender_dirty us s0 honly f (Or.inr ⟨u, hu, hf⟩),
    ?_, performScheduledRenders_nodup _, ?_, fun f => rfl, rfl⟩
  · cases us with
    | nil => exact absurd rfl hne
    | cons u rest =>
      rw [List.foldl_cons]
      have h1 : (scheduleRender s0 u).isRenderScheduled = true ∧
          (scheduleRender s0 u).framesScheduled = s0.framesScheduled + 1 := by
        rw [scheduleRender]
        rw [if_neg (by rw [h0]; exact Bool.false_ne_true)]
        exact ⟨rfl, rfl⟩
      obtain ⟨hs1, hf1⟩ := foldl_scheduleRender_scheduled rest _ h1.1
      rw [hf1, h1.2]
  · intro hsl
    rw [performScheduledRenders]
    simp only [hsl, if_true]
    constructor
    · simp
    · split_ifs <;> simp

/-- Closed instance of `scheduler_coalesces` for two calls between frames. -/
theorem scheduler_coalesces_witness :
    ([[(RFlag.songList, true)], [(RFlag.header, true)]].foldl scheduleRender
      { dirty := fun _ => false, isRenderScheduled := false,
        framesScheduled := 0 }).framesScheduled = 0 + 1
    ∧ ([[(RFlag.songList, true)], [(RFlag.header, true)]].foldl scheduleRender
      { dirty := fun _ => false, isRenderScheduled := false,
        framesScheduled := 0 }).dirty RFlag.songList = true := by
  have h := scheduler_coalesces
    { dirty := fun _ => false, isRenderScheduled := false, framesScheduled := 0 }
    [[(RFlag.songList, true)], [(RFlag.header, true)]] rfl (by decide) (by simp)
  exact ⟨h.2.2.1, h.2.1 RFlag.songList [(RFlag.songList, true)] (by simp) (by simp)⟩

/-! ## Theorems: no duplicate fetch (C4) -/

/-- C4: after any trace of request/settle events, a path belonging to a
still-pending batch is (a) excluded from the `newPaths` any new request would
issue to `Api.getSongsByPaths`, (b) in the in-flight set while the batch is
pending, (c) out of the in-flight set immediately after that batch settles
(resolution and rejection both run the `finally` block modelled by `settle`),
and (d) issued again if requested after the settle. -/
theorem fetch_no_duplicate (evs : List FetchEvent) (b : Batch) (p : String)
    (hb : b ∈ (fetchRun evs).pendingBatches) (hp : p ∈ b.paths) :
    (∀ reqPaths : List String, p ∉ newPathsOf (fetchRun evs) reqPaths)
    ∧ p ∈ (fetchRun evs).inflight
    ∧ p ∉ (fetchStep (fetchRun evs) (.settle b.id)).inflight
    ∧ p ∈ newPathsOf (fetchStep (fetchRun evs) (.settle b.id)) [p] := by
  have hinv := fetchInv_run evs
  have hpin : p ∈ (fetchRun evs).inflight := (hinv.cover p).mpr ⟨b, hb, hp⟩
  have hbfind : ∃ b2, (fetchRun evs).pendingBatches.find? (fun b2 => b2.id = b.id)
      = some b2 := by
    rcases hfind : (fetchRun evs).pendingBatches.find? (fun b2 => b2.id = b.id) with
      _ | b2
    · exact absurd (List.find?_eq_none.mp hfind b hb) (by simp)
    · exact ⟨b2, hfind⟩
  obtain ⟨b2, hfind⟩ := hbfind
  have hb2mem : b2 ∈ (fetchRun evs).pendingBatches := List.mem_of_find?_eq_some hfind
  have hb2id : b2.id = b.id := by simpa using List.find?_some hfind
  have hb2eq : b2 = b := List.inj_on_of_nodup_map hinv.idsNodup hb2mem hb hb2id
  have hout : p ∉ (fetchStep (fetchRun evs) (.settle b.id)).inflight := by
    rw [fetchStep, hfind, hb2eq]
    intro hmem
    have := List.of_mem_filter hmem
    simp at this
    exact this hp
  refine ⟨fun reqPaths hmem => ?_, hpin, hout, ?_⟩
  · have := List.of_mem_filter hmem
    simp at this
    exact this hpin
  · rw [newPathsOf]
    rw [List.mem_filter]
    refine ⟨by simp, by simpa using hout⟩

/-- Closed instance of `fetch_no_duplicate`: after `request ["a"]`, the path
"a" sits in a pending batch; it is skipped by a new request, and removed from
the in-flight set (and re-issuable) exactly at that batch's settle. -/
theorem fetch_no_duplicate_witness :
    "a" ∉ newPathsOf (fetchRun [FetchEvent.request ["a"]]) ["a", "b"]
    ∧ "a" ∈ (fetchRun [FetchEvent.request ["a"]]).inflight
    ∧ "a" ∉ (fetchStep (fetchRun [FetchEvent.request ["a"]])
        (FetchEvent.settle 0)).inflight
    ∧ "a" ∈ newPathsOf (fetchStep (fetchRun [FetchEvent.request ["a"]])
        (FetchEvent.settle 0)) ["a"] := by
  have h := fetch_no_duplicate [FetchEvent.request ["a"]]
    { id := 0, paths := ["a"] } "a" (by decide) (by decide)
  exact ⟨h.1 ["a", "b"], h.2⟩

/-! ## Theorems: virtualized list window (C3, C9) -/

/-- C3: after any render pass, the non-hidden pooled rows cover exactly the
indices `[max(0, startIndex - 5), min(dataLen - 1, startIndex + visibleCount + 5)]`
with `startIndex = floor(scrollTop/46)` and `visibleCount = ceil(clientHeight/46)`,
in order, with no gaps and no duplicates; every non-hidden row is positioned by
`translateY(dataIdx * 46)`; and the window is empty for an empty data source. -/
theorem virtual_window_exact (pool : List VNode) (scrollTop clientHeight dataLen : Nat) :
    visibleIdxs (renderVisibleSongs pool scrollTop clientHeight dataLen) =
      intRangeList (max 0 (((scrollTop / 46 : Nat) : Int) - 5))
        (min ((dataLen : Int) - 1)
          (((scrollTop / 46 : Nat) : Int) + (((clientHeight + 45) / 46 : Nat) : Int) + 5))
    ∧ (visibleIdxs (renderVisibleSongs pool scrollTop clientHeight dataLen)).Nodup
    ∧ (∀ j : Int,
        j ∈ visibleIdxs (renderVisibleSongs pool scrollTop clientHeight dataLen) ↔
          max 0 (((scrollTop / 46 : Nat) : Int) - 5) ≤ j ∧
          j ≤ min ((dataLen : Int) - 1)
            (((scrollTop / 46 : Nat) : Int) + (((clientHeight + 45) / 46 : Nat) : Int) + 5))
    ∧ (∀ nd ∈ renderVisibleSongs pool scrollTop clientHeight dataLen,
        nd.hidden = false → nd.transform = nd.dataIdx * 46)
    ∧ (dataLen = 0 →
        visibleIdxs (renderVisibleSongs pool scrollTop clientHeight dataLen) = []) := by
  refine ⟨visibleIdxs_renderVisibleSongs pool scrollTop clientHeight dataLen, ?_, ?_, ?_, ?_⟩
  · rw [visibleIdxs_renderVisibleSongs]
    exact nodup_intRangeList _ _
  · intro j
    rw [visibleIdxs_renderVisibleSongs]
    exact mem_intRangeList
  · intro nd hnd hvis
    exact assignLoop_transform _ _ _ nd hnd hvis
  · intro h0
    subst h0
    rw [visibleIdxs_renderVisibleSongs]
    apply intRangeList_nil
    have h1 := min_le_left ((0 : Int) - 1)
      (((scrollTop / 46 : Nat) : Int) + (((clientHeight + 45) / 46 : Nat) : Int) + 5)
    have h2 : (0 : Int) ≤ max 0 (((scrollTop / 46 : Nat) : Int) - 5) := le_max_left _ _
    omega

/-- Closed instance of `virtual_window_exact`: an empty data source renders an
empty window. -/
theorem virtual_window_exact_witness :
    visibleIdxs (renderVisibleSongs [] 0 0 0) = [] :=
  (virtual_window_exact [] 0 0 0).2.2.2.2 rfl

/-- C9 counterexample: with 10000 rows, a 460 px viewport and buffer 5, NO
scroll offset makes the rendered window exactly rows `[5..20]`: the code's
window end is `startIndex + visibleCount + buffer`, so any window that starts
at row 5 extends to row 25. -/
theorem no_scroll_renders_5_to_20 :
    ¬ ∃ scrollTop : Nat, visibleIdxs (renderVisibleSongs [] scrollTop 460 10000) =
      intRangeList 5 20 := by
  rintro ⟨s, h⟩
  rw [visibleIdxs_renderVisibleSongs] at h
  have hmem : ∀ j : Int,
      (max 0 (((s / 46 : Nat) : Int) - 5) ≤ j ∧
        j ≤ min ((10000 : Nat) - 1 : Int)
          (((s / 46 : Nat) : Int) + (((460 + 45) / 46 : Nat) : Int) + 5)) ↔
      (5 ≤ j ∧ j ≤ 20) := by
    intro j
    rw [← mem_intRangeList, h, mem_intRangeList]
  have hvc : (((460 + 45) / 46 : Nat) : Int) = 10 := by norm_num
  rw [hvc] at hmem
  have h5 := (hmem 5).mpr (by norm_num)
  have h4 : ¬ (max 0 (((s / 46 : Nat) : Int) - 5) ≤ 4 ∧
      4 ≤ min ((10000 : Nat) - 1 : Int) (((s / 46 : Nat) : Int) + 10 + 5)) := by
    intro hc
    have := (hmem 4).mp hc
    omega
  have h21 : ¬ (max 0 (((s / 46 : Nat) : Int) - 5) ≤ 21 ∧
      21 ≤ min ((10000 : Nat) - 1 : Int) (((s / 46 : Nat) : Int) + 10 + 5)) := by
    intro hc
    have := (hmem 21).mp hc
    omega
  have hq0 : (0 : Int) ≤ ((s / 46 : Nat) : Int) := Int.natCast_nonneg _
  rcases max_cases (0 : Int) (((s / 46 : Nat) : Int) - 5) with ⟨hA, hA2⟩ | ⟨hA, hA2⟩ <;>
    rcases min_cases ((10000 : Nat) - 1 : Int) (((s / 46 : Nat) : Int) + 10 + 5) with
      ⟨hB, hB2⟩ | ⟨hB, hB2⟩ <;>
    omega

/-- C9 amended: at scroll offset 460 the rendered window of the 10000-row,
460 px, buffer-5 configuration is exactly rows `[5..25]` — the 10 fully
visible rows 10-19, 5 buffer rows above, and 6 extra rows below, because the
window end is computed as `startIndex + visibleCount + buffer`. -/
theorem scroll_460_renders_5_to_25 :
    visibleIdxs (renderVisibleSongs [] 460 460 10000) = intRangeList 5 25 := by
  rw [visibleIdxs_renderVisibleSongs]
  norm_num

/-! ## Theorems: song deletion (C8) -/

/-- C8: at the failing input (one cached song "a" in playlist "Default",
selected for deletion), the optimistic action of `deleteSelectedSongs` removes
the path from every playlist, but the song is STILL in the song cache
afterwards: the action passes a songs map without the deleted keys to
`setMusicData`, and `setMusicData` merges (`\x7b ...old, ...new \x7d`) instead
of replacing, so keys absent from the new map are silently retained. -/
theorem deleteSongs_cache_retained :
    (∀ e ∈ (deleteSelectedSongsOptimistic
      { musicData := { songs := [("a", { path := "a" })],
                       playlists := [("Default", ["a"])],
                       playlistOrder := ["Default"], activePlaylist := "Default" },
        playQueue := [], currentSongIndex := -1, selectedSongPaths := ["a"],
        lastClickedPath := none }).musicData.playlists, "a" ∉ e.2)
    ∧ objLookup (deleteSelectedSongsOptimistic
      { musicData := { songs := [("a", { path := "a" })],
                       playlists := [("Default", ["a"])],
                       playlistOrder := ["Default"], activePlaylist := "Default" },
        playQueue := [], currentSongIndex := -1, selectedSongPaths := ["a"],
        lastClickedPath := none }).musicData.songs "a" = some { path := "a" } := by
  decide

/-! ## Theorems: publish/subscribe (C6) -/

/-- C6 counterexample: with two subscribed callbacks, the first of which
throws, `publish` invokes only the first — the exception does prevent the
remaining callback from running (`forEach` has no try/catch around the
callback invocation). -/
theorem publish_throw_stops_later_callbacks :
    publishRun (subscribe (subscribe [] { id := 0, throws := true })
        { id := 1, throws := false }) = ([0], true)
    ∧ 1 ∉ (publishRun (subscribe (subscribe [] { id := 0, throws := true })
        { id := 1, throws := false })).1 := by
  decide

/-- C6 amended: `publish` invokes callbacks synchronously in registration
order up to and including the first callback that throws; if no callback
throws all callbacks run in registration order, and an exception escapes the
publish exactly when some invoked callback throws. -/
theorem publish_order (cbs : List SubCallback) :
    (publishRun cbs).1 =
      (cbs.take (cbs.findIdx (fun c => c.throws) + 1)).map (fun c => c.id)
    ∧ (publishRun cbs).2 = cbs.any (fun c => c.throws) := by
  induction cbs with
  | nil => exact ⟨rfl, rfl⟩
  | cons c rest ih =>
    by_cases h : c.throws = true
    · simp [publishRun, h, List.findIdx_cons]
    · simp only [Bool.not_eq_true] at h
      simp [publishRun, h, List.findIdx_cons, ih.1, ih.2]

/-! ## Theorems: markers (C7) -/

/-- C7 counterexample: starting from the sorted, well-spaced marker list
`[(id 0, t = 0), (id 1, t = 10)]`, updating marker 1 to timestamp 1/5 yields
a list in which the two markers are 1/5 s apart — closer than the 0.5 s
minimum spacing, because `updateMarkerTimestamp` performs no spacing check. -/
theorem marker_update_breaks_spacing :
    MarkersSorted [⟨0, 0⟩, ⟨1, 10⟩] ∧ MarkersSpaced [⟨0, 0⟩, ⟨1, 10⟩]
    ∧ updateMarkerTimestamp [⟨0, 0⟩, ⟨1, 10⟩] 1 (1/5) = [⟨0, 0⟩, ⟨1, 1/5⟩]
    ∧ ¬ MarkersSpaced (updateMarkerTimestamp [⟨0, 0⟩, ⟨1, 10⟩] 1 (1/5)) := by
  norm_num [MarkersSorted, MarkersSpaced, updateMarkerTimestamp, updFirstTimestamp,
    sortMarkers, List.insertionSort, List.orderedInsert, markerLE, ratAbs,
    List.pairwise_cons]

/-- Helper: the spacing relation is symmetric. -/
theorem spacedRel_symm :
    Symmetric (fun a b : Marker => (1 : ℚ)/2 ≤ ratAbs (a.timestamp - b.timestamp)) := by
  intro a b h
  rwa [ratAbs_eq_abs, abs_sub_comm, ← ratAbs_eq_abs]

/-- Helper: `sortMarkers` permutes its input, so spacing transfers. -/
theorem markersSpaced_sortMarkers {ms : List Marker} (h : MarkersSpaced ms) :
    MarkersSpaced (sortMarkers ms) :=
  ((List.perm_insertionSort markerLE ms).pairwise_iff
    (fun hab => spacedRel_symm hab)).mpr h

/-- Helper: `sortMarkers` always yields an ascending list. -/
theorem markersSorted_sortMarkers (ms : List Marker) :
    MarkersSorted (sortMarkers ms) :=
  List.sorted_insertionSort markerLE ms

/-- C7 amended: insertion (which rejects candidates within 0.5 s of an
existing marker) and deletion both preserve sortedness and the 0.5 s minimum
spacing; a timestamp update always leaves the list sorted ascending, but its
spacing is not protected (no spacing check on the update path — see the
counterexample). -/
theorem marker_ops_invariants (ms : List Marker) (mid newId : Nat) (t : ℚ)
    (hs : MarkersSorted ms) (hd : MarkersSpaced ms) :
    (MarkersSorted (addMarker ms newId t) ∧ MarkersSpaced (addMarker ms newId t))
    ∧ (MarkersSorted (deleteMarker ms mid) ∧ MarkersSpaced (deleteMarker ms mid))
    ∧ MarkersSorted (updateMarkerTimestamp ms mid t) := by
  refine ⟨?_, ⟨hs.filter _, hd.filter _⟩, ?_⟩
  · unfold addMarker
    split_ifs with hclose
    · exact ⟨hs, hd⟩
    · refine ⟨markersSorted_sortMarkers _, markersSpaced_sortMarkers ?_⟩
      rw [MarkersSpaced, List.pairwise_append]
      refine ⟨hd, List.pairwise_singleton _ _, ?_⟩
      intro a ha b hb
      simp only [List.mem_singleton] at hb
      subst hb
      simp only [List.any_eq_true, not_exists, not_and] at hclose
      have := hclose a ha
      simpa using not_lt.mp (by simpa using this)
  · unfold updateMarkerTimestamp
    split_ifs with hin
    · exact markersSorted_sortMarkers _
    · exact hs

/-- Closed instance of `marker_ops_invariants` on a concrete sorted,
well-spaced list. -/
theorem marker_ops_invariants_witness :
    MarkersSorted [⟨0, 0⟩, ⟨1, 1⟩] ∧ MarkersSpaced [⟨0, 0⟩, ⟨1, 1⟩]
    ∧ ((MarkersSorted (addMarker [⟨0, 0⟩, ⟨1, 1⟩] 2 5)
        ∧ MarkersSpaced (addMarker [⟨0, 0⟩, ⟨1, 1⟩] 2 5))
      ∧ (MarkersSorted (deleteMarker [⟨0, 0⟩, ⟨1, 1⟩] 0)
        ∧ MarkersSpaced (deleteMarker [⟨0, 0⟩, ⟨1, 1⟩] 0))
      ∧ MarkersSorted (updateMarkerTimestamp [⟨0, 0⟩, ⟨1, 1⟩] 0 5)) :=
  ⟨by norm_num [MarkersSorted, markerLE, List.pairwise_cons],
   by norm_num [MarkersSpaced, ratAbs, List.pairwise_cons],
   marker_ops_invariants [⟨0, 0⟩, ⟨1, 1⟩] 0 2 5
     (by norm_num [MarkersSorted, markerLE, List.pairwise_cons])
     (by norm_num [MarkersSpaced, ratAbs, List.pairwise_cons])⟩

end FNote
